import Mathlib

/-!
Shallow embedding of `interval_bound_propagation/src/bounds.py`.

Tensors are modelled as a shape (list of dimension sizes) together with a flat
row-major data list of rational scalars (the idealised, exact counterpart of the
floating-point tensors used by the code).  Elementwise TensorFlow operations
with broadcasting, `tf.matmul`, `tf.nn.convolution`, `tf.squeeze` and Sonnet's
`BatchFlatten` are embedded as executable functions returning `Option Tensor`
(`none` models the runtime shape errors TensorFlow raises).  The two Python
classes `AbstractBounds` and `IntervalBounds` are embedded below, with Python
exceptions modelled by `Except IBPError`.
-/

namespace IBP

/-- A tensor: row-major flat data together with its shape. -/
structure Tensor where
  shape : List ℕ
  data : List ℚ
deriving DecidableEq, Repr

/-- Strip the leading size-1 axes of a shape (used for broadcasting). -/
def stripOnes : List ℕ → List ℕ
  | 1 :: rest => stripOnes rest
  | s => s

/-- `sfxOf a b` holds when the shape `a` is a suffix of the shape `b`. -/
def sfxOf (a b : List ℕ) : Bool := a == b.drop (b.length - a.length)

/-- The index into the second operand's flat data used by a broadcast
elementwise operation (identity when the shapes agree, wrap-around over the
trailing block otherwise). -/
def bIdx (a b : Tensor) (k : ℕ) : ℕ :=
  if a.shape = b.shape then k else k % (stripOnes b.shape).prod

/-- Elementwise binary TensorFlow operation.  When the shapes agree this is the
pointwise application of `f`; otherwise the second operand is broadcast against
the first (modelling the right-aligned NumPy broadcast rule in the cases the
code exercises: a tensor whose shape, after stripping leading unit axes, is a
trailing block of the first operand's shape).  Any other shape combination is a
TensorFlow error, modelled by `none`. -/
def ewise (f : ℚ → ℚ → ℚ) (a b : Tensor) : Option Tensor :=
  if a.shape = b.shape then
    some ⟨a.shape, (List.range a.data.length).map
      (fun k => f (a.data.getD k 0) (b.data.getD k 0))⟩
  else if sfxOf (stripOnes b.shape) a.shape then
    some ⟨a.shape, (List.range a.data.length).map
      (fun k => f (a.data.getD k 0) (b.data.getD (k % (stripOnes b.shape).prod) 0))⟩
  else none

/-- Elementwise unary operation (shape-preserving map over the data). -/
def tMap (f : ℚ → ℚ) (t : Tensor) : Tensor := ⟨t.shape, t.data.map f⟩

/-- `tf.add` / Python `+` on tensors. -/
def tAdd (a b : Tensor) : Option Tensor := ewise (· + ·) a b

/-- Python `-` on tensors. -/
def tSub (a b : Tensor) : Option Tensor := ewise (· - ·) a b

/-- `tf.multiply` / Python `*` on tensors. -/
def tMul (a b : Tensor) : Option Tensor := ewise (· * ·) a b

/-- `tf.abs`. -/
def tAbs (t : Tensor) : Tensor := tMap (fun x => |x|) t

/-- Integer square root by bounded linear search (kernel-computable). -/
def natSqrtL (n : ℕ) : ℕ :=
  ((List.range (n + 1)).takeWhile (fun k => k * k ≤ n)).length - 1

/-- Rational square root: square roots of numerator and denominator.  Exact on
the nonnegative rationals whose numerator and denominator are perfect squares
(all inputs arising in this development). -/
def ratSqrt (q : ℚ) : ℚ :=
  if q.num < 0 then 0 else (natSqrtL q.num.toNat : ℚ) / (natSqrtL q.den : ℚ)

/-- `tf.rsqrt`: reciprocal square root, applied elementwise. -/
def ratRsqrt (q : ℚ) : ℚ := (ratSqrt q)⁻¹

/-- `tf.matmul` for rank-2 tensors: `[m, n] × [n, p] → [m, p]`. -/
def matmulT (a b : Tensor) : Option Tensor :=
  match a.shape, b.shape with
  | [m, n], [n2, p] =>
    if n = n2 then
      some ⟨[m, p], (List.range (m * p)).map (fun k =>
        ((List.range n).map (fun t =>
          a.data.getD ((k / p) * n + t) 0 * b.data.getD (t * p + k % p) 0)).sum)⟩
    else none
  | _, _ => none

/-- Padding mode of `tf.nn.convolution`. -/
inductive Padding where
  | same : Padding
  | valid : Padding
deriving DecidableEq, Repr

/-- Output spatial size of a convolution along one axis
(input size `n`, kernel size `k`, stride `s`). -/
def convOutDim : Padding → ℕ → ℕ → ℕ → Option ℕ
  | .valid, n, k, s => if k ≤ n then some ((n - k) / s + 1) else none
  | .same, n, _, s => some ((n + s - 1) / s)

/-- Leading zero-padding of a `SAME` convolution along one axis. -/
def convPadBefore : Padding → ℕ → ℕ → ℕ → ℕ → ℕ
  | .valid, _, _, _, _ => 0
  | .same, n, k, s, o => (max ((o - 1) * s + k) n - n) / 2

/-- One summand of a convolution output element: the (zero-padded) input value
at batch `bb`, output position `(oy, ox)`, kernel offset `(di, dj)`, input
channel `ci`, times the corresponding kernel weight. -/
def convTerm (x w : Tensor) (h wd cin kw cout : ℕ) (pt pl : ℕ) (sh sw : ℕ)
    (bb oy ox co : ℕ) (di dj ci : ℕ) : ℚ :=
  (if pt ≤ oy * sh + di ∧ oy * sh + di - pt < h ∧
      pl ≤ ox * sw + dj ∧ ox * sw + dj - pl < wd then
    x.data.getD (((bb * h + (oy * sh + di - pt)) * wd + (ox * sw + dj - pl)) * cin + ci) 0
  else 0) *
  w.data.getD (((di * kw + dj) * cin + ci) * cout + co) 0

/-- `tf.nn.convolution` for NHWC rank-4 inputs and HWIO rank-4 kernels. -/
def conv2dT (x w : Tensor) (p : Padding) (sh sw : ℕ) : Option Tensor :=
  match x.shape, w.shape with
  | [n, h, wd, cin], [kh, kw, cin2, cout] =>
    if cin2 = cin ∧ 0 < sh ∧ 0 < sw then
      match convOutDim p h kh sh, convOutDim p wd kw sw with
      | some oh, some ow =>
        some ⟨[n, oh, ow, cout], (List.range (n * oh * ow * cout)).map (fun idx =>
          ((List.range (kh * kw * cin)).map (fun kidx =>
            convTerm x w h wd cin kw cout
              (convPadBefore p h kh sh oh) (convPadBefore p wd kw sw ow) sh sw
              (idx / cout / ow / oh) (idx / cout / ow % oh) (idx / cout % ow)
              (idx % cout) (kidx / cin / kw) (kidx / cin % kw) (kidx % cin))).sum)⟩
      | _, _ => none
    else none
  | _, _ => none

/-- `tf.squeeze(b, axis=0)`: removes the leading axis, which TensorFlow
requires to have size exactly 1. -/
def squeeze0 (t : Tensor) : Option Tensor :=
  if t.shape.head? = some 1 then some ⟨t.shape.tail, t.data⟩ else none

/-- `snt.BatchFlatten`: reshape to batch × flattened trailing features. -/
def batchFlattenT (t : Tensor) : Option Tensor :=
  match t.shape with
  | [] => none
  | b :: rest => some ⟨[b, rest.prod], t.data⟩

/-- The value of `lower` / `upper` of an `IntervalBounds`: either one tensor or
(after `combine_with`) an ordered tuple of tensors. -/
inductive TValue where
  | single : Tensor → TValue
  | multi : List Tensor → TValue
deriving DecidableEq, Repr

/-- Is this value a Python tuple (multi-source state)? -/
def TValue.isTuple : TValue → Bool
  | .multi _ => true
  | .single _ => false

/-- The Python exceptions the code can raise. -/
inductive IBPError where
  | notImplemented : String → IBPError
  | valueError : String → IBPError
  | assertionError : IBPError
  | typeError : String → IBPError
  | shapeError : IBPError
deriving DecidableEq, Repr

/-- The `IntervalBounds` class: an axis-aligned bounding box. -/
structure IntervalBounds where
  lower : TValue
  upper : TValue
deriving DecidableEq, Repr

/-- `if b is not None: c = c + b` — add the optional bias. -/
def addBias (c : Tensor) : Option Tensor → Option Tensor
  | some bias => tAdd c bias
  | none => some c

/-- The tensor computation of `IntervalBounds._linear` on singleton bounds
`[l, u]`, in source order: center `c = (l + u) / 2`, radius
`r = (u - l) / 2`, `c ↦ c·w (+ b)`, `r ↦ r·|w|`, result `(c - r, c + r)`. -/
def linearO (l u w : Tensor) (b : Option Tensor) : Option (Tensor × Tensor) :=
  (tAdd l u).bind fun s =>
  (tSub u l).bind fun d =>
  (matmulT (tMap (· / 2) s) w).bind fun c1 =>
  (addBias c1 b).bind fun c =>
  (matmulT (tMap (· / 2) d) (tAbs w)).bind fun r =>
  (tSub c r).bind fun lo =>
  (tAdd c r).bind fun hi =>
  some (lo, hi)

/-- `IntervalBounds._linear`.  The `_ensure_singleton` guard raises
`ValueError` when `lower` or `upper` is a tuple. -/
def IntervalBounds.linear (self : IntervalBounds) (w : Tensor) (b : Option Tensor) :
    Except IBPError IntervalBounds :=
  match self.lower, self.upper with
  | .single l, .single u =>
    match linearO l u w b with
    | some (lo, hi) => .ok ⟨.single lo, .single hi⟩
    | none => .error .shapeError
  | _, _ => .error (.valueError "Cannot proceed with multiple inputs.")

/-- The tensor computation of `IntervalBounds._conv2d` on singleton bounds:
same center/radius strategy with `tf.nn.convolution` as the linear map. -/
def conv2dO (l u w : Tensor) (b : Option Tensor) (p : Padding) (sh sw : ℕ) :
    Option (Tensor × Tensor) :=
  (tAdd l u).bind fun s =>
  (tSub u l).bind fun d =>
  (conv2dT (tMap (· / 2) s) w p sh sw).bind fun c1 =>
  (addBias c1 b).bind fun c =>
  (conv2dT (tMap (· / 2) d) (tAbs w) p sh sw).bind fun r =>
  (tSub c r).bind fun lo =>
  (tAdd c r).bind fun hi =>
  some (lo, hi)

/-- `IntervalBounds._conv2d`. -/
def IntervalBounds.conv2d (self : IntervalBounds) (w : Tensor) (b : Option Tensor)
    (p : Padding) (sh sw : ℕ) : Except IBPError IntervalBounds :=
  match self.lower, self.upper with
  | .single l, .single u =>
    match conv2dO l u w b p sh sw with
    | some (lo, hi) => .ok ⟨.single lo, .single hi⟩
    | none => .error .shapeError
  | _, _ => .error (.valueError "Cannot proceed with multiple inputs.")

/-- `IntervalBounds._monotonic_fn`.  A Python function of positional tensor
arguments is modelled as `List Tensor → Tensor`; the multi-source branch
unpacks the tuples positionally (`fn(*self.lower)`), the singleton branch
passes the one tensor (`fn(self.lower)`).  When `lower` is a tuple but `upper`
is not, the `assert` fails; when `lower` is single but `upper` is a tuple,
`_ensure_singleton` raises `ValueError`. -/
def IntervalBounds.monotonicFn (self : IntervalBounds) (fn : List Tensor → Tensor) :
    Except IBPError IntervalBounds :=
  match self.lower, self.upper with
  | .multi ls, .multi us => .ok ⟨.single (fn ls), .single (fn us)⟩
  | .multi _, .single _ => .error .assertionError
  | .single l, .single u => .ok ⟨.single (fn [l]), .single (fn [u])⟩
  | .single _, .multi _ => .error (.valueError "Cannot proceed with multiple inputs.")

/-- The folded batch-norm multiplier: `tf.rsqrt(variance + epsilon)`,
multiplied by `scale` when present. -/
def bnMultiplier (variance : Tensor) (scale : Option Tensor) (epsilon : ℚ) :
    Option Tensor :=
  match scale with
  | some s => tMul (tMap ratRsqrt (tMap (· + epsilon) variance)) s
  | none => some (tMap ratRsqrt (tMap (· + epsilon) variance))

/-- The folded batch-norm bias before the squeeze: `-multiplier * mean`, plus
`bias` when present. -/
def bnBias (multiplier mean : Tensor) (bias : Option Tensor) : Option Tensor :=
  (tMul (tMap Neg.neg multiplier) mean).bind fun b => addBias b bias

/-- The tensor computation of `IntervalBounds._batch_norm` on singleton bounds,
in source order: fold the parameters into `w` and `b`, squeeze the leading axis
of `b`, then apply the center/radius strategy with `c·w + b` and `r·|w|`. -/
def batchNormO (l u mean variance : Tensor) (scale bias : Option Tensor)
    (epsilon : ℚ) : Option (Tensor × Tensor) :=
  (bnMultiplier variance scale epsilon).bind fun w =>
  (bnBias w mean bias).bind fun b0 =>
  (squeeze0 b0).bind fun b =>
  (tAdd l u).bind fun s =>
  (tSub u l).bind fun d =>
  (tMul (tMap (· / 2) s) w).bind fun cw =>
  (tAdd cw b).bind fun c =>
  (tMul (tMap (· / 2) d) (tAbs w)).bind fun r =>
  (tSub c r).bind fun lo =>
  (tAdd c r).bind fun hi =>
  some (lo, hi)

/-- `IntervalBounds._batch_norm`. -/
def IntervalBounds.batchNorm (self : IntervalBounds) (mean variance : Tensor)
    (scale bias : Option Tensor) (epsilon : ℚ) : Except IBPError IntervalBounds :=
  match self.lower, self.upper with
  | .single l, .single u =>
    match batchNormO l u mean variance scale bias epsilon with
    | some (lo, hi) => .ok ⟨.single lo, .single hi⟩
    | none => .error .shapeError
  | _, _ => .error (.valueError "Cannot proceed with multiple inputs.")

/-- `IntervalBounds._batch_flatten`: flatten `lower` and `upper` independently. -/
def IntervalBounds.batchFlatten (self : IntervalBounds) :
    Except IBPError IntervalBounds :=
  match self.lower, self.upper with
  | .single l, .single u =>
    match batchFlattenT l, batchFlattenT u with
    | some lf, some uf => .ok ⟨.single lf, .single uf⟩
    | _, _ => .error .shapeError
  | _, _ => .error (.valueError "Cannot proceed with multiple inputs.")

/-- `IntervalBounds.combine_with`.  (The `isinstance(bounds, IntervalBounds)`
check of the source cannot fail here because the embedding has a single
concrete bounds type.)  The operand is first checked singleton; then a
singleton `self` produces 2-tuples and a tuple `self` appends.  A `self` with a
tuple `lower` but single `upper` would make Python concatenate a tuple onto a
tensor, a `TypeError`, modelled accordingly. -/
def IntervalBounds.combineWith (self other : IntervalBounds) :
    Except IBPError IntervalBounds :=
  match other.lower, other.upper with
  | .single ol, .single ou =>
    match self.lower, self.upper with
    | .single sl, .single su => .ok ⟨.multi [sl, ol], .multi [su, ou]⟩
    | .single _, .multi _ => .error (.valueError "Cannot proceed with multiple inputs.")
    | .multi ls, .multi us => .ok ⟨.multi (ls ++ [ol]), .multi (us ++ [ou])⟩
    | .multi _, .single _ => .error (.typeError "can only concatenate tuple to tuple")
  | _, _ => .error (.valueError "Cannot proceed with multiple inputs.")

/-- A verifiable layer wrapper: the tagged variant of
`verifiable_wrapper.VerifiableWrapper` subclasses together with the module
parameters `propagate_through` reads from each, plus an `other` variant for
every wrapper class outside the closed set (carrying its class name). -/
inductive Wrapper where
  | linearFC : Tensor → Option Tensor → Wrapper
  | linearConv2d : Tensor → Option Tensor → Padding → ℕ → ℕ → Wrapper
  | monotonic : String → (List Tensor → Tensor) → Wrapper
  | batchNorm : Tensor → Tensor → Option Tensor → Option Tensor → ℚ → Wrapper
  | batchFlatten : Wrapper
  | other : String → Wrapper

/-- A concrete bounds representation: the overridable per-kind handlers of
`AbstractBounds`.  Each default is the `_raise_not_implemented` fallback, which
names the layer kind and the concrete class (`monotonic` uses the function's
name, as `_monotonic_fn` does with `fn.__name__`). -/
structure BoundsRep (β : Type) where
  className : String
  linear : β → Tensor → Option Tensor → Except IBPError β :=
    fun _ _ _ => .error (.notImplemented
      ("snt.Linear modules are not supported by \"" ++ className ++ "\"."))
  conv2d : β → Tensor → Option Tensor → Padding → ℕ → ℕ → Except IBPError β :=
    fun _ _ _ _ _ _ => .error (.notImplemented
      ("snt.Conv2D modules are not supported by \"" ++ className ++ "\"."))
  monotonicFn : β → String → (List Tensor → Tensor) → Except IBPError β :=
    fun _ fnName _ => .error (.notImplemented
      (fnName ++ " modules are not supported by \"" ++ className ++ "\"."))
  batchNorm : β → Tensor → Tensor → Option Tensor → Option Tensor → ℚ →
      Except IBPError β :=
    fun _ _ _ _ _ _ => .error (.notImplemented
      ("ibp.BatchNorm modules are not supported by \"" ++ className ++ "\"."))
  batchFlatten : β → Except IBPError β :=
    fun _ => .error (.notImplemented
      ("snt.BatchFlatten modules are not supported by \"" ++ className ++ "\"."))

/-- `AbstractBounds.propagate_through`: dispatch on the wrapper class to the
kind-specific handler; any wrapper outside the closed set raises
`NotImplementedError` naming the wrapper class. -/
def propagateThrough {β : Type} (rep : BoundsRep β) (self : β) (w : Wrapper) :
    Except IBPError β :=
  match w with
  | .linearFC wt b => rep.linear self wt b
  | .linearConv2d wt b p sh sw => rep.conv2d self wt b p sh sw
  | .monotonic name fn => rep.monotonicFn self name fn
  | .batchNorm mean variance scale bias eps => rep.batchNorm self mean variance scale bias eps
  | .batchFlatten => rep.batchFlatten self
  | .other cn => .error (.notImplemented (cn ++ " not supported."))

/-- A bounds representation that overrides none of the per-kind handlers
(an `AbstractBounds` subclass with only `combine_with`). -/
def abstractOnlyRep (className : String) : BoundsRep Unit := { className := className }

/-- The `IntervalBounds` representation: every handler is overridden. -/
def intervalBoundsRep : BoundsRep IntervalBounds where
  className := "IntervalBounds"
  linear := IntervalBounds.linear
  conv2d := IntervalBounds.conv2d
  monotonicFn := fun b _ fn => IntervalBounds.monotonicFn b fn
  batchNorm := IntervalBounds.batchNorm
  batchFlatten := IntervalBounds.batchFlatten

/-- State-threaded form of `propagate_through` for `IntervalBounds`: the
method bodies only ever read `self._lower` / `self._upper` (there is no
assignment to either anywhere in the class), so the translated post-state of
`self` is `self` itself, paired with the pure result. -/
def IntervalBounds.propagateSt (self : IntervalBounds) (w : Wrapper) :
    IntervalBounds × Except IBPError IntervalBounds :=
  (self, propagateThrough intervalBoundsRep self w)

/-- State-threaded form of `combine_with`: neither `self` nor the operand is
written to, and the result is a freshly constructed `IntervalBounds`. -/
def IntervalBounds.combineWithSt (self other : IntervalBounds) :
    (IntervalBounds × IntervalBounds) × Except IBPError IntervalBounds :=
  ((self, other), self.combineWith other)

/-- Elementwise order on tensors: same shape, same extent, and every element of
the first is at most the corresponding element of the second. -/
def elemLe (a b : Tensor) : Prop :=
  a.shape = b.shape ∧ a.data.length = b.data.length ∧
    ∀ k, k < a.data.length → a.data.getD k 0 ≤ b.data.getD k 0

instance (a b : Tensor) : Decidable (elemLe a b) :=
  decidable_of_iff (a.shape = b.shape ∧ a.data.length = b.data.length ∧
    ∀ k, k < a.data.length → a.data.getD k 0 ≤ b.data.getD k 0) Iff.rfl

/-- The soundness invariant `lower <= upper`, elementwise, for every element
(source-wise for multi-source bounds; mismatched single/tuple states violate
the representation's state machine). -/
def IntervalBounds.wfLe (b : IntervalBounds) : Prop :=
  match b.lower, b.upper with
  | .single l, .single u => elemLe l u
  | .multi ls, .multi us => List.Forall₂ elemLe ls us
  | _, _ => False

instance : (b : IntervalBounds) → Decidable (b.wfLe)
  | ⟨.single l, .single u⟩ => decidable_of_iff (elemLe l u) Iff.rfl
  | ⟨.multi ls, .multi us⟩ => decidable_of_iff (List.Forall₂ elemLe ls us) Iff.rfl
  | ⟨.single _, .multi _⟩ => .isFalse (fun h => h)
  | ⟨.multi _, .single _⟩ => .isFalse (fun h => h)

/-- The monotonicity precondition on the function of a `MonotonicWrapper`:
non-decreasing (elementwise) in every positional argument. -/
def MonotoneFn (fn : List Tensor → Tensor) : Prop :=
  ∀ ls us, List.Forall₂ elemLe ls us → elemLe (fn ls) (fn us)

/-- All data entries of a tensor are nonnegative. -/
def nonnegData (t : Tensor) : Prop := ∀ x ∈ t.data, 0 ≤ x

lemma getD_nonneg {xs : List ℚ} (h : ∀ x ∈ xs, 0 ≤ x) (k : ℕ) : 0 ≤ xs.getD k 0 := by
  rcases lt_or_ge k xs.length with hk | hk
  · rw [List.getD_eq_getElem?_getD, List.getElem?_eq_getElem hk]
    exact h _ (List.getElem_mem hk)
  · rw [List.getD_eq_getElem?_getD, List.getElem?_eq_none hk]
    simp

lemma rangeMap_getD (n : ℕ) (g : ℕ → ℚ) {k : ℕ} (h : k < n) :
    ((List.range n).map g).getD k 0 = g k := by
  rw [List.getD_eq_getElem?_getD, List.getElem?_map, List.getElem?_range h]
  rfl

lemma ewise_shape {f : ℚ → ℚ → ℚ} {a b t : Tensor} (h : ewise f a b = some t) :
    t.shape = a.shape := by
  unfold ewise at h
  split at h
  · cases h; rfl
  · split at h
    · cases h; rfl
    · cases h

lemma ewise_length {f : ℚ → ℚ → ℚ} {a b t : Tensor} (h : ewise f a b = some t) :
    t.data.length = a.data.length := by
  unfold ewise at h
  split at h
  · cases h; simp
  · split at h
    · cases h; simp
    · cases h

lemma ewise_getD {f : ℚ → ℚ → ℚ} {a b t : Tensor} (h : ewise f a b = some t)
    {k : ℕ} (hk : k < a.data.length) :
    t.data.getD k 0 = f (a.data.getD k 0) (b.data.getD (bIdx a b k) 0) := by
  by_cases hs : a.shape = b.shape
  · rw [ewise, if_pos hs] at h
    cases h
    rw [bIdx, if_pos hs]
    exact rangeMap_getD _ _ hk
  · rw [ewise, if_neg hs] at h
    by_cases hx : sfxOf (stripOnes b.shape) a.shape = true
    · rw [if_pos hx] at h
      cases h
      rw [bIdx, if_neg hs]
      exact rangeMap_getD _ _ hk
    · rw [if_neg hx] at h
      cases h

lemma ewise_mem {f : ℚ → ℚ → ℚ} {a b t : Tensor} (h : ewise f a b = some t) :
    ∀ x ∈ t.data, ∃ i j, x = f (a.data.getD i 0) (b.data.getD j 0) := by
  intro x hx
  by_cases hs : a.shape = b.shape
  · rw [ewise, if_pos hs] at h
    cases h
    obtain ⟨k, _, rfl⟩ := List.mem_map.mp hx
    exact ⟨k, k, rfl⟩
  · rw [ewise, if_neg hs] at h
    by_cases hsf : sfxOf (stripOnes b.shape) a.shape = true
    · rw [if_pos hsf] at h
      cases h
      obtain ⟨k, _, rfl⟩ := List.mem_map.mp hx
      exact ⟨k, _, rfl⟩
    · rw [if_neg hsf] at h
      cases h

lemma tMap_nonneg {g : ℚ → ℚ} (hg : ∀ x : ℚ, 0 ≤ x → 0 ≤ g x) {t : Tensor}
    (ht : nonnegData t) : nonnegData (tMap g t) := by
  intro x hx
  obtain ⟨y, hy, rfl⟩ := List.mem_map.mp hx
  exact hg y (ht y hy)

lemma tAbs_nonneg (t : Tensor) : nonnegData (tAbs t) := by
  intro x hx
  obtain ⟨y, _, rfl⟩ := List.mem_map.mp hx
  exact abs_nonneg y

lemma tSub_nonneg {l u d : Tensor} (hle : elemLe l u) (h : tSub u l = some d) :
    nonnegData d := by
  obtain ⟨hs, hlen, hkle⟩ := hle
  rw [tSub, ewise, if_pos hs.symm] at h
  cases h
  intro x hx
  obtain ⟨k, hk, rfl⟩ := List.mem_map.mp hx
  rw [List.mem_range] at hk
  have hkl : k < l.data.length := by omega
  have := hkle k hkl
  linarith

lemma tMul_nonneg {a b t : Tensor} (h : tMul a b = some t)
    (ha : nonnegData a) (hb : nonnegData b) : nonnegData t := by
  intro x hx
  obtain ⟨i, j, rfl⟩ := ewise_mem h x hx
  exact mul_nonneg (getD_nonneg ha i) (getD_nonneg hb j)

lemma half_nonneg : ∀ x : ℚ, 0 ≤ x → 0 ≤ x / 2 := by
  intro x hx
  positivity

lemma matmulT_nonneg {a b t : Tensor} (h : matmulT a b = some t)
    (ha : nonnegData a) (hb : nonnegData b) : nonnegData t := by
  unfold matmulT at h
  split at h
  · split at h
    · cases h
      intro x hx
      obtain ⟨k, _, rfl⟩ := List.mem_map.mp hx
      refine List.sum_nonneg ?_
      intro q hq
      obtain ⟨s, _, rfl⟩ := List.mem_map.mp hq
      exact mul_nonneg (getD_nonneg ha _) (getD_nonneg hb _)
    · cases h
  · cases h

lemma convTerm_nonneg {x w : Tensor} (hx : nonnegData x) (hw : nonnegData w)
    (hh wd cin kw cout pt pl sh sw bb oy ox co di dj ci : ℕ) :
    0 ≤ convTerm x w hh wd cin kw cout pt pl sh sw bb oy ox co di dj ci := by
  unfold convTerm
  refine mul_nonneg ?_ (getD_nonneg hw _)
  split
  · exact getD_nonneg hx _
  · exact le_refl 0

lemma conv2dT_nonneg {x w t : Tensor} {p : Padding} {sh sw : ℕ}
    (h : conv2dT x w p sh sw = some t) (hx : nonnegData x) (hw : nonnegData w) :
    nonnegData t := by
  unfold conv2dT at h
  split at h
  · split at h
    · split at h
      · cases h
        intro q hq
        obtain ⟨k, _, rfl⟩ := List.mem_map.mp hq
        refine List.sum_nonneg ?_
        intro z hz
        obtain ⟨s, _, rfl⟩ := List.mem_map.mp hz
        exact convTerm_nonneg hx hw _ _ _ _ _ _ _ _ _ _ _ _ _ _ _ _
      · cases h
    · cases h
  · cases h

lemma subAdd_elemLe {c r lo hi : Tensor} (hlo : tSub c r = some lo)
    (hhi : tAdd c r = some hi) (hr : nonnegData r) : elemLe lo hi := by
  refine ⟨?_, ?_, ?_⟩
  · rw [ewise_shape hlo, ewise_shape hhi]
  · rw [ewise_length hlo, ewise_length hhi]
  · intro k hk
    rw [ewise_length hlo] at hk
    rw [ewise_getD hlo hk, ewise_getD hhi hk]
    have h0 := getD_nonneg hr (bIdx c r k)
    linarith

lemma linearO_preserves {l u w : Tensor} {b : Option Tensor} {lo hi : Tensor}
    (hle : elemLe l u) (h : linearO l u w b = some (lo, hi)) : elemLe lo hi := by
  simp only [linearO, Option.bind_eq_some, Option.some.injEq, Prod.mk.injEq] at h
  obtain ⟨s, hs, d, hd, c1, hc1, c, hc, r, hr, lo2, hlo, hi2, hhi, hl2, hh2⟩ := h
  subst hl2
  subst hh2
  have hrnn : nonnegData r :=
    matmulT_nonneg hr (tMap_nonneg half_nonneg (tSub_nonneg hle hd)) (tAbs_nonneg w)
  exact subAdd_elemLe hlo hhi hrnn

lemma conv2dO_preserves {l u w : Tensor} {b : Option Tensor} {p : Padding}
    {sh sw : ℕ} {lo hi : Tensor} (hle : elemLe l u)
    (h : conv2dO l u w b p sh sw = some (lo, hi)) : elemLe lo hi := by
  simp only [conv2dO, Option.bind_eq_some, Option.some.injEq, Prod.mk.injEq] at h
  obtain ⟨s, hs, d, hd, c1, hc1, c, hc, r, hr, lo2, hlo, hi2, hhi, hl2, hh2⟩ := h
  subst hl2
  subst hh2
  have hrnn : nonnegData r :=
    conv2dT_nonneg hr (tMap_nonneg half_nonneg (tSub_nonneg hle hd)) (tAbs_nonneg w)
  exact subAdd_elemLe hlo hhi hrnn

lemma batchNormO_preserves {l u mean variance : Tensor} {scale bias : Option Tensor}
    {eps : ℚ} {lo hi : Tensor} (hle : elemLe l u)
    (h : batchNormO l u mean variance scale bias eps = some (lo, hi)) : elemLe lo hi := by
  simp only [batchNormO, Option.bind_eq_some, Option.some.injEq, Prod.mk.injEq] at h
  obtain ⟨w, hw, b0, hb0, bq, hbq, s, hs, d, hd, cw, hcw, c, hc, r, hr,
    lo2, hlo, hi2, hhi, hl2, hh2⟩ := h
  subst hl2
  subst hh2
  have hrnn : nonnegData r :=
    tMul_nonneg hr (tMap_nonneg half_nonneg (tSub_nonneg hle hd)) (tAbs_nonneg w)
  exact subAdd_elemLe hlo hhi hrnn

lemma batchFlattenT_cons {t : Tensor} {b0 : ℕ} {rest : List ℕ}
    (h : t.shape = b0 :: rest) :
    batchFlattenT t = some ⟨[b0, rest.prod], t.data⟩ := by
  unfold batchFlattenT
  rw [h]

lemma batchFlattenT_elemLe {l u lf uf : Tensor} (hle : elemLe l u)
    (hl : batchFlattenT l = some lf) (hu : batchFlattenT u = some uf) :
    elemLe lf uf := by
  obtain ⟨hs, hlen, hk⟩ := hle
  rcases hsl : l.shape with _ | ⟨b0, rest⟩
  · rw [batchFlattenT, hsl] at hl
    cases hl
  · rw [batchFlattenT_cons hsl] at hl
    rw [batchFlattenT_cons (by rw [← hs, hsl])] at hu
    cases hl
    cases hu
    exact ⟨rfl, hlen, hk⟩


lemma ewise_single_same (f : ℚ → ℚ → ℚ) (s : List ℕ) (x y : ℚ) :
    ewise f ⟨s, [x]⟩ ⟨s, [y]⟩ = some ⟨s, [f x y]⟩ := by
  simp [ewise, List.range_succ]

lemma ewise_pair_same (f : ℚ → ℚ → ℚ) (s : List ℕ) (x1 x2 y1 y2 : ℚ) :
    ewise f ⟨s, [x1, x2]⟩ ⟨s, [y1, y2]⟩ = some ⟨s, [f x1 y1, f x2 y2]⟩ := by
  simp [ewise, List.range_succ]

lemma ewise_11_1 (f : ℚ → ℚ → ℚ) (x y : ℚ) :
    ewise f ⟨[1, 1], [x]⟩ ⟨[1], [y]⟩ = some ⟨[1, 1], [f x y]⟩ := by
  norm_num [ewise, sfxOf, stripOnes, List.range_succ]

lemma matmul_11 (x y : ℚ) :
    matmulT ⟨[1, 1], [x]⟩ ⟨[1, 1], [y]⟩ = some ⟨[1, 1], [x * y]⟩ := by
  norm_num [matmulT, List.range_succ]

lemma conv_1111 (x y : ℚ) :
    conv2dT ⟨[1, 1, 1, 1], [x]⟩ ⟨[1, 1, 1, 1], [y]⟩ .valid 1 1 =
      some ⟨[1, 1, 1, 1], [x * y]⟩ := by
  norm_num [conv2dT, convOutDim, convPadBefore, convTerm, List.range_succ]

lemma natSqrtL_four : natSqrtL 4 = 2 := by decide

lemma natSqrtL_one : natSqrtL 1 = 1 := by decide

lemma ratRsqrt_four : ratRsqrt 4 = 1 / 2 := by
  have h2 : Int.toNat 4 = 4 := rfl
  norm_num [ratRsqrt, ratSqrt, h2, natSqrtL_four, natSqrtL_one]

lemma linear_wfLe {b : IntervalBounds} {w : Tensor} {bias : Option Tensor}
    {out : IntervalBounds} (hwf : b.wfLe) (h : b.linear w bias = .ok out) :
    out.wfLe := by
  obtain ⟨lv, uv⟩ := b
  cases lv with
  | multi ls => cases uv <;> simp [IntervalBounds.linear] at h
  | single l =>
    cases uv with
    | multi us => simp [IntervalBounds.linear] at h
    | single u =>
      have hle : elemLe l u := hwf
      simp only [IntervalBounds.linear] at h
      split at h
      · cases h
        exact linearO_preserves hle (by assumption)
      · cases h

lemma conv2d_wfLe {b : IntervalBounds} {w : Tensor} {bias : Option Tensor}
    {p : Padding} {sh sw : ℕ} {out : IntervalBounds} (hwf : b.wfLe)
    (h : b.conv2d w bias p sh sw = .ok out) : out.wfLe := by
  obtain ⟨lv, uv⟩ := b
  cases lv with
  | multi ls => cases uv <;> simp [IntervalBounds.conv2d] at h
  | single l =>
    cases uv with
    | multi us => simp [IntervalBounds.conv2d] at h
    | single u =>
      have hle : elemLe l u := hwf
      simp only [IntervalBounds.conv2d] at h
      split at h
      · cases h
        exact conv2dO_preserves hle (by assumption)
      · cases h

lemma batchNorm_wfLe {b : IntervalBounds} {mean variance : Tensor}
    {scale bias : Option Tensor} {eps : ℚ} {out : IntervalBounds} (hwf : b.wfLe)
    (h : b.batchNorm mean variance scale bias eps = .ok out) : out.wfLe := by
  obtain ⟨lv, uv⟩ := b
  cases lv with
  | multi ls => cases uv <;> simp [IntervalBounds.batchNorm] at h
  | single l =>
    cases uv with
    | multi us => simp [IntervalBounds.batchNorm] at h
    | single u =>
      have hle : elemLe l u := hwf
      simp only [IntervalBounds.batchNorm] at h
      split at h
      · cases h
        exact batchNormO_preserves hle (by assumption)
      · cases h

lemma batchFlatten_wfLe {b : IntervalBounds} {out : IntervalBounds} (hwf : b.wfLe)
    (h : b.batchFlatten = .ok out) : out.wfLe := by
  obtain ⟨lv, uv⟩ := b
  cases lv with
  | multi ls => cases uv <;> simp [IntervalBounds.batchFlatten] at h
  | single l =>
    cases uv with
    | multi us => simp [IntervalBounds.batchFlatten] at h
    | single u =>
      have hle : elemLe l u := hwf
      simp only [IntervalBounds.batchFlatten] at h
      split at h
      · cases h
        exact batchFlattenT_elemLe hle (by assumption) (by assumption)
      · cases h

lemma monotonicFn_wfLe {b : IntervalBounds} {fn : List Tensor → Tensor}
    {out : IntervalBounds} (hwf : b.wfLe) (hmono : MonotoneFn fn)
    (h : b.monotonicFn fn = .ok out) : out.wfLe := by
  obtain ⟨lv, uv⟩ := b
  cases lv with
  | multi ls =>
    cases uv with
    | single u => simp [IntervalBounds.monotonicFn] at h
    | multi us =>
      simp only [IntervalBounds.monotonicFn] at h
      cases h
      exact hmono ls us hwf
  | single l =>
    cases uv with
    | multi us => simp [IntervalBounds.monotonicFn] at h
    | single u =>
      simp only [IntervalBounds.monotonicFn] at h
      cases h
      exact hmono [l] [u] (List.Forall₂.cons hwf List.Forall₂.nil)

/-- C1: every propagation operation of `IntervalBounds` (`_linear`, `_conv2d`,
`_batch_norm`, `_batch_flatten`, and `_monotonic_fn` under the
monotonic-function precondition) preserves the soundness invariant
`lower <= upper`, elementwise: if the input bounds satisfy it and the
operation succeeds, the output bounds satisfy it again. -/
theorem C1_ordering_invariant_preserved :
    (∀ (b : IntervalBounds) (w : Tensor) (bias : Option Tensor)
      (out : IntervalBounds), b.wfLe → b.linear w bias = .ok out → out.wfLe) ∧
    (∀ (b : IntervalBounds) (w : Tensor) (bias : Option Tensor) (p : Padding)
      (sh sw : ℕ) (out : IntervalBounds),
      b.wfLe → b.conv2d w bias p sh sw = .ok out → out.wfLe) ∧
    (∀ (b : IntervalBounds) (mean variance : Tensor) (scale bias : Option Tensor)
      (eps : ℚ) (out : IntervalBounds),
      b.wfLe → b.batchNorm mean variance scale bias eps = .ok out → out.wfLe) ∧
    (∀ (b out : IntervalBounds), b.wfLe → b.batchFlatten = .ok out → out.wfLe) ∧
    (∀ (b : IntervalBounds) (fn : List Tensor → Tensor) (out : IntervalBounds),
      b.wfLe → MonotoneFn fn → b.monotonicFn fn = .ok out → out.wfLe) :=
  ⟨fun _ _ _ _ hwf h => linear_wfLe hwf h,
   fun _ _ _ _ _ _ _ hwf h => conv2d_wfLe hwf h,
   fun _ _ _ _ _ _ _ hwf h => batchNorm_wfLe hwf h,
   fun _ _ hwf h => batchFlatten_wfLe hwf h,
   fun _ _ _ hwf hmono h => monotonicFn_wfLe hwf hmono h⟩


/-- C1 witness: concrete instances of each conjunct — a 1×1 linear layer, a
1×1×1×1 convolution, a 1×1 batch-norm, a 1×2 flatten, and a constant monotonic
function on multi-source bounds, each yielding ordered output bounds. -/
theorem C1_ordering_invariant_preserved_witness :
    IntervalBounds.wfLe ⟨.single ⟨[1, 1], [3]⟩, .single ⟨[1, 1], [7]⟩⟩ ∧
    IntervalBounds.wfLe ⟨.single ⟨[1, 1, 1, 1], [2]⟩, .single ⟨[1, 1, 1, 1], [6]⟩⟩ ∧
    IntervalBounds.wfLe ⟨.single ⟨[1, 1], [1]⟩, .single ⟨[1, 1], [3]⟩⟩ ∧
    IntervalBounds.wfLe ⟨.single ⟨[1, 2], [1, 2]⟩, .single ⟨[1, 2], [3, 4]⟩⟩ ∧
    IntervalBounds.wfLe ⟨.single ⟨[], []⟩, .single ⟨[], []⟩⟩ := by
  refine ⟨?_, ?_, ?_, ?_, ?_⟩
  · exact C1_ordering_invariant_preserved.1
      ⟨.single ⟨[1, 1], [1]⟩, .single ⟨[1, 1], [3]⟩⟩ ⟨[1, 1], [2]⟩ (some ⟨[1], [1]⟩) _
      (by decide)
      (by norm_num [IntervalBounds.linear, linearO, addBias, tAdd, tSub, tMul, ewise,
        tMap, tAbs, matmulT, sfxOf, stripOnes, List.range_succ])
  · exact C1_ordering_invariant_preserved.2.1
      ⟨.single ⟨[1, 1, 1, 1], [1]⟩, .single ⟨[1, 1, 1, 1], [3]⟩⟩ ⟨[1, 1, 1, 1], [2]⟩
      none .valid 1 1 _
      (by decide)
      (by norm_num [IntervalBounds.conv2d, conv2dO, addBias, tAdd, tSub, tMap, tAbs,
        ewise_single_same, conv_1111, Option.some_bind])
  · exact C1_ordering_invariant_preserved.2.2.1
      ⟨.single ⟨[1, 1], [1]⟩, .single ⟨[1, 1], [3]⟩⟩ ⟨[1, 1], [0]⟩ ⟨[1, 1], [3]⟩
      (some ⟨[1, 1], [2]⟩) (some ⟨[1, 1], [0]⟩) 1 _
      (by decide)
      (by
        have h1 : (3 : ℚ) + 1 = 4 := by norm_num
        norm_num [IntervalBounds.batchNorm, batchNormO, bnMultiplier, bnBias, addBias,
          squeeze0, tAdd, tSub, tMul, tMap, tAbs, ewise_single_same, ewise_11_1,
          h1, ratRsqrt_four, Option.some_bind])
  · exact C1_ordering_invariant_preserved.2.2.2.1
      ⟨.single ⟨[1, 2], [1, 2]⟩, .single ⟨[1, 2], [3, 4]⟩⟩ _ (by decide) rfl
  · exact C1_ordering_invariant_preserved.2.2.2.2
      ⟨.multi [⟨[1], [1]⟩], .multi [⟨[1], [2]⟩]⟩ (fun _ => ⟨[], []⟩) _
      (by decide)
      (fun _ _ _ => show elemLe ⟨[], []⟩ ⟨[], []⟩ from by decide)
      rfl

/-- C2: `_linear` maps singleton bounds `[l, u]` to
`[c·w + b - r·|w|, c·w + b + r·|w|]` with center `c = (l + u) / 2` and radius
`r = (u - l) / 2`; on a 1×1 layer with `w = 2`, `b = 1`, input `[1, 3]` it
returns `[3, 7]`, and with `w = -2`, `b = 0` it returns `[-6, -2]`, whose
lower bound is still at most its upper bound. -/
theorem C2_linear_center_radius :
    (∀ (l u w : Tensor) (b : Option Tensor) (s d c1 c r lo hi : Tensor),
      tAdd l u = some s → tSub u l = some d →
      matmulT (tMap (· / 2) s) w = some c1 → addBias c1 b = some c →
      matmulT (tMap (· / 2) d) (tAbs w) = some r →
      tSub c r = some lo → tAdd c r = some hi →
      IntervalBounds.linear ⟨.single l, .single u⟩ w b =
        .ok ⟨.single lo, .single hi⟩) ∧
    (∀ l u wv bv : ℚ,
      IntervalBounds.linear ⟨.single ⟨[1, 1], [l]⟩, .single ⟨[1, 1], [u]⟩⟩
        ⟨[1, 1], [wv]⟩ (some ⟨[1], [bv]⟩) =
      .ok ⟨.single ⟨[1, 1], [(l + u) / 2 * wv + bv - (u - l) / 2 * |wv|]⟩,
           .single ⟨[1, 1], [(l + u) / 2 * wv + bv + (u - l) / 2 * |wv|]⟩⟩) ∧
    (IntervalBounds.linear ⟨.single ⟨[1, 1], [1]⟩, .single ⟨[1, 1], [3]⟩⟩
        ⟨[1, 1], [2]⟩ (some ⟨[1], [1]⟩) =
      .ok ⟨.single ⟨[1, 1], [3]⟩, .single ⟨[1, 1], [7]⟩⟩) ∧
    (IntervalBounds.linear ⟨.single ⟨[1, 1], [1]⟩, .single ⟨[1, 1], [3]⟩⟩
        ⟨[1, 1], [-2]⟩ (some ⟨[1], [0]⟩) =
      .ok ⟨.single ⟨[1, 1], [-6]⟩, .single ⟨[1, 1], [-2]⟩⟩) ∧
    elemLe ⟨[1, 1], [-6]⟩ ⟨[1, 1], [-2]⟩ := by
  have hgen : ∀ l u wv bv : ℚ,
      IntervalBounds.linear ⟨.single ⟨[1, 1], [l]⟩, .single ⟨[1, 1], [u]⟩⟩
        ⟨[1, 1], [wv]⟩ (some ⟨[1], [bv]⟩) =
      .ok ⟨.single ⟨[1, 1], [(l + u) / 2 * wv + bv - (u - l) / 2 * |wv|]⟩,
           .single ⟨[1, 1], [(l + u) / 2 * wv + bv + (u - l) / 2 * |wv|]⟩⟩ := by
    intro l u wv bv
    norm_num [IntervalBounds.linear, linearO, addBias, tAdd, tSub, tMul, ewise,
      tMap, tAbs, matmulT, sfxOf, stripOnes, List.range_succ]
  refine ⟨?_, hgen, ?_, ?_, by decide⟩
  · intro l u w b s d c1 c r lo hi h1 h2 h3 h4 h5 h6 h7
    simp only [IntervalBounds.linear, linearO, h1, h2, h3, h4, h5, h6, h7,
      Option.some_bind]
  · have h := hgen 1 3 2 1
    norm_num at h
    exact h
  · have h := hgen 1 3 (-2) 0
    norm_num at h
    exact h

/-- C2 witness: the center/radius chain of the first conjunct instantiated at
the 1×1 layer `w = 2`, `b = 1`, input `[1, 3]`, every intermediate tensor
computed concretely. -/
theorem C2_linear_center_radius_witness :
    IntervalBounds.linear ⟨.single ⟨[1, 1], [1]⟩, .single ⟨[1, 1], [3]⟩⟩
      ⟨[1, 1], [2]⟩ (some ⟨[1], [1]⟩) =
      .ok ⟨.single ⟨[1, 1], [3]⟩, .single ⟨[1, 1], [7]⟩⟩ :=
  C2_linear_center_radius.1 ⟨[1, 1], [1]⟩ ⟨[1, 1], [3]⟩ ⟨[1, 1], [2]⟩
    (some ⟨[1], [1]⟩) ⟨[1, 1], [4]⟩ ⟨[1, 1], [2]⟩ ⟨[1, 1], [4]⟩ ⟨[1, 1], [5]⟩
    ⟨[1, 1], [2]⟩ ⟨[1, 1], [3]⟩ ⟨[1, 1], [7]⟩
    (by norm_num [tAdd, ewise_single_same])
    (by norm_num [tSub, ewise_single_same])
    (by norm_num [tMap, matmul_11])
    (by norm_num [addBias, tAdd, ewise_11_1])
    (by norm_num [tMap, tAbs, matmul_11])
    (by norm_num [tSub, ewise_single_same])
    (by norm_num [tAdd, ewise_single_same])

/-- C3: `_batch_norm` folds mean, variance, scale, bias and epsilon into the
affine transform with multiplier `rsqrt(variance + epsilon)` (times `scale`
when present) and bias term `-multiplier·mean` (plus `bias` when present,
squeezed on axis 0), then applies the center/radius rule with `c·w + b` and
`r·|w|`; for mean 0, variance 3, epsilon 1, scale 2, bias 0 and input `[1, 3]`
the output is `[1, 3]`. -/
theorem C3_batch_norm_fold :
    (∀ (l u mean variance : Tensor) (scale bias : Option Tensor) (eps : ℚ)
      (w b0 b s d cw c r lo hi : Tensor),
      bnMultiplier variance scale eps = some w →
      bnBias w mean bias = some b0 →
      squeeze0 b0 = some b →
      tAdd l u = some s → tSub u l = some d →
      tMul (tMap (· / 2) s) w = some cw → tAdd cw b = some c →
      tMul (tMap (· / 2) d) (tAbs w) = some r →
      tSub c r = some lo → tAdd c r = some hi →
      IntervalBounds.batchNorm ⟨.single l, .single u⟩ mean variance scale bias eps =
        .ok ⟨.single lo, .single hi⟩) ∧
    (IntervalBounds.batchNorm ⟨.single ⟨[1, 1], [1]⟩, .single ⟨[1, 1], [3]⟩⟩
        ⟨[1, 1], [0]⟩ ⟨[1, 1], [3]⟩ (some ⟨[1, 1], [2]⟩) (some ⟨[1, 1], [0]⟩) 1 =
      .ok ⟨.single ⟨[1, 1], [1]⟩, .single ⟨[1, 1], [3]⟩⟩) := by
  constructor
  · intro l u mean variance scale bias eps w b0 b s d cw c r lo hi
      h1 h2 h3 h4 h5 h6 h7 h8 h9 h10
    simp only [IntervalBounds.batchNorm, batchNormO, h1, h2, h3, h4, h5, h6, h7,
      h8, h9, h10, Option.some_bind]
  · have h1 : (3 : ℚ) + 1 = 4 := by norm_num
    norm_num [IntervalBounds.batchNorm, batchNormO, bnMultiplier, bnBias, addBias,
      squeeze0, tAdd, tSub, tMul, tMap, tAbs, ewise_single_same, ewise_11_1,
      h1, ratRsqrt_four, Option.some_bind]

/-- C3 witness: the fold chain of the first conjunct instantiated at mean 0,
variance 3, epsilon 1, scale 2, bias 0, input `[1, 3]`: the multiplier is
`rsqrt(4)·2 = 1`, the folded bias squeezes to `0`, and the output is `[1, 3]`. -/
theorem C3_batch_norm_fold_witness :
    IntervalBounds.batchNorm ⟨.single ⟨[1, 1], [1]⟩, .single ⟨[1, 1], [3]⟩⟩
      ⟨[1, 1], [0]⟩ ⟨[1, 1], [3]⟩ (some ⟨[1, 1], [2]⟩) (some ⟨[1, 1], [0]⟩) 1 =
      .ok ⟨.single ⟨[1, 1], [1]⟩, .single ⟨[1, 1], [3]⟩⟩ :=
  C3_batch_norm_fold.1 ⟨[1, 1], [1]⟩ ⟨[1, 1], [3]⟩ ⟨[1, 1], [0]⟩ ⟨[1, 1], [3]⟩
    (some ⟨[1, 1], [2]⟩) (some ⟨[1, 1], [0]⟩) 1
    ⟨[1, 1], [1]⟩ ⟨[1, 1], [0]⟩ ⟨[1], [0]⟩ ⟨[1, 1], [4]⟩ ⟨[1, 1], [2]⟩
    ⟨[1, 1], [2]⟩ ⟨[1, 1], [2]⟩ ⟨[1, 1], [1]⟩ ⟨[1, 1], [1]⟩ ⟨[1, 1], [3]⟩
    (by
      have h1 : (3 : ℚ) + 1 = 4 := by norm_num
      norm_num [bnMultiplier, tMap, tMul, ewise_single_same, h1, ratRsqrt_four])
    (by norm_num [bnBias, addBias, tMap, tMul, tAdd, ewise_single_same])
    (by norm_num [squeeze0])
    (by norm_num [tAdd, ewise_single_same])
    (by norm_num [tSub, ewise_single_same])
    (by norm_num [tMap, tMul, ewise_single_same])
    (by norm_num [tAdd, ewise_11_1])
    (by norm_num [tMap, tMul, tAbs, ewise_single_same])
    (by norm_num [tSub, ewise_single_same])
    (by norm_num [tAdd, ewise_single_same])

/-- C4: `combine_with` on a singleton `self` and singleton operand returns the
2-tuples `(self.lower, other.lower)` / `(self.upper, other.upper)`; on a
tuple `self` of length k it appends the operand last, giving length k + 1 in
the original per-source order; concretely A(1,2) with B(3,4) gives
lower (1,3), upper (2,4), and a further C(5,6) appends to length-3 tuples. -/
theorem C4_combine_with_pairs_and_appends :
    (∀ sl su ol ou : Tensor,
      IntervalBounds.combineWith ⟨.single sl, .single su⟩ ⟨.single ol, .single ou⟩ =
        .ok ⟨.multi [sl, ol], .multi [su, ou]⟩) ∧
    (∀ (ls us : List Tensor) (ol ou : Tensor),
      IntervalBounds.combineWith ⟨.multi ls, .multi us⟩ ⟨.single ol, .single ou⟩ =
        .ok ⟨.multi (ls ++ [ol]), .multi (us ++ [ou])⟩) ∧
    (IntervalBounds.combineWith ⟨.single ⟨[1], [1]⟩, .single ⟨[1], [2]⟩⟩
        ⟨.single ⟨[1], [3]⟩, .single ⟨[1], [4]⟩⟩ =
      .ok ⟨.multi [⟨[1], [1]⟩, ⟨[1], [3]⟩], .multi [⟨[1], [2]⟩, ⟨[1], [4]⟩]⟩) ∧
    (IntervalBounds.combineWith
        ⟨.multi [⟨[1], [1]⟩, ⟨[1], [3]⟩], .multi [⟨[1], [2]⟩, ⟨[1], [4]⟩]⟩
        ⟨.single ⟨[1], [5]⟩, .single ⟨[1], [6]⟩⟩ =
      .ok ⟨.multi [⟨[1], [1]⟩, ⟨[1], [3]⟩, ⟨[1], [5]⟩],
           .multi [⟨[1], [2]⟩, ⟨[1], [4]⟩, ⟨[1], [6]⟩]⟩) :=
  ⟨fun _ _ _ _ => rfl, fun _ _ _ _ => rfl, rfl, rfl⟩

/-- C5: every single-source operation (`_linear`, `_conv2d`, `_batch_norm`,
`_batch_flatten`) raises `ValueError` whenever `lower` or `upper` is a tuple,
and `combine_with` raises the same error on a tuple operand; the
monotonic-function path and `combine_with` on a multi-source `self` accept
tuples. -/
theorem C5_multi_source_guard :
    (∀ (b : IntervalBounds) (w : Tensor) (bias : Option Tensor),
      (b.lower.isTuple || b.upper.isTuple) = true →
      b.linear w bias = .error (.valueError "Cannot proceed with multiple inputs.")) ∧
    (∀ (b : IntervalBounds) (w : Tensor) (bias : Option Tensor) (p : Padding)
      (sh sw : ℕ),
      (b.lower.isTuple || b.upper.isTuple) = true →
      b.conv2d w bias p sh sw =
        .error (.valueError "Cannot proceed with multiple inputs.")) ∧
    (∀ (b : IntervalBounds) (mean variance : Tensor) (scale bias : Option Tensor)
      (eps : ℚ),
      (b.lower.isTuple || b.upper.isTuple) = true →
      b.batchNorm mean variance scale bias eps =
        .error (.valueError "Cannot proceed with multiple inputs.")) ∧
    (∀ b : IntervalBounds,
      (b.lower.isTuple || b.upper.isTuple) = true →
      b.batchFlatten = .error (.valueError "Cannot proceed with multiple inputs.")) ∧
    (∀ self other : IntervalBounds,
      (other.lower.isTuple || other.upper.isTuple) = true →
      self.combineWith other =
        .error (.valueError "Cannot proceed with multiple inputs.")) ∧
    (∀ (ls us : List Tensor) (fn : List Tensor → Tensor),
      IntervalBounds.monotonicFn ⟨.multi ls, .multi us⟩ fn =
        .ok ⟨.single (fn ls), .single (fn us)⟩) ∧
    (∀ (ls us : List Tensor) (ol ou : Tensor),
      IntervalBounds.combineWith ⟨.multi ls, .multi us⟩ ⟨.single ol, .single ou⟩ =
        .ok ⟨.multi (ls ++ [ol]), .multi (us ++ [ou])⟩) := by
  refine ⟨?_, ?_, ?_, ?_, ?_, fun _ _ _ => rfl, fun _ _ _ _ => rfl⟩
  · intro b w bias h
    obtain ⟨lv, uv⟩ := b
    cases lv <;> cases uv
    · simp [TValue.isTuple] at h
    · rfl
    · rfl
    · rfl
  · intro b w bias p sh sw h
    obtain ⟨lv, uv⟩ := b
    cases lv <;> cases uv
    · simp [TValue.isTuple] at h
    · rfl
    · rfl
    · rfl
  · intro b mean variance scale bias eps h
    obtain ⟨lv, uv⟩ := b
    cases lv <;> cases uv
    · simp [TValue.isTuple] at h
    · rfl
    · rfl
    · rfl
  · intro b h
    obtain ⟨lv, uv⟩ := b
    cases lv <;> cases uv
    · simp [TValue.isTuple] at h
    · rfl
    · rfl
    · rfl
  · intro self other h
    obtain ⟨olv, ouv⟩ := other
    cases olv <;> cases ouv
    · simp [TValue.isTuple] at h
    · rfl
    · rfl
    · rfl

/-- C5 witness: the guards instantiated on concrete multi-source bounds: each
single-source operation, and `combine_with` with a multi-source operand, raises
the `ValueError`. -/
theorem C5_multi_source_guard_witness :
    IntervalBounds.linear ⟨.multi [], .multi []⟩ ⟨[], []⟩ none =
      .error (.valueError "Cannot proceed with multiple inputs.") ∧
    IntervalBounds.conv2d ⟨.multi [], .multi []⟩ ⟨[], []⟩ none .valid 1 1 =
      .error (.valueError "Cannot proceed with multiple inputs.") ∧
    IntervalBounds.batchNorm ⟨.multi [], .multi []⟩ ⟨[], []⟩ ⟨[], []⟩ none none 0 =
      .error (.valueError "Cannot proceed with multiple inputs.") ∧
    IntervalBounds.batchFlatten ⟨.multi [], .multi []⟩ =
      .error (.valueError "Cannot proceed with multiple inputs.") ∧
    IntervalBounds.combineWith ⟨.single ⟨[], []⟩, .single ⟨[], []⟩⟩
        ⟨.multi [], .multi []⟩ =
      .error (.valueError "Cannot proceed with multiple inputs.") :=
  ⟨C5_multi_source_guard.1 ⟨.multi [], .multi []⟩ ⟨[], []⟩ none rfl,
   C5_multi_source_guard.2.1 ⟨.multi [], .multi []⟩ ⟨[], []⟩ none .valid 1 1 rfl,
   C5_multi_source_guard.2.2.1 ⟨.multi [], .multi []⟩ ⟨[], []⟩ ⟨[], []⟩ none none 0 rfl,
   C5_multi_source_guard.2.2.2.1 ⟨.multi [], .multi []⟩ rfl,
   C5_multi_source_guard.2.2.2.2.1 ⟨.single ⟨[], []⟩, .single ⟨[], []⟩⟩
     ⟨.multi [], .multi []⟩ rfl⟩

/-- C6: `_monotonic_fn` on multi-source bounds applies the function once to
the positionally unpacked tuple of lower bounds and once to the tuple of upper
bounds; on singleton bounds it applies the function to `lower` and to
`upper`. -/
theorem C6_monotonic_fn_positional :
    (∀ (ls us : List Tensor) (fn : List Tensor → Tensor),
      IntervalBounds.monotonicFn ⟨.multi ls, .multi us⟩ fn =
        .ok ⟨.single (fn ls), .single (fn us)⟩) ∧
    (∀ (l u : Tensor) (fn : List Tensor → Tensor),
      IntervalBounds.monotonicFn ⟨.single l, .single u⟩ fn =
        .ok ⟨.single (fn [l]), .single (fn [u])⟩) :=
  ⟨fun _ _ _ => rfl, fun _ _ _ => rfl⟩

/-- C7: `propagate_through` raises `NotImplementedError` naming the wrapper
class for every wrapper outside the closed set of five kinds, and a bounds
representation that overrides no handler raises, for each of the five kinds,
the error naming both the representation's class and the layer kind. -/
theorem C7_dispatch_closed_set_errors :
    (∀ {β : Type} (rep : BoundsRep β) (self : β) (cn : String),
      propagateThrough rep self (.other cn) =
        .error (.notImplemented (cn ++ " not supported."))) ∧
    (∀ (n : String) (s : Unit) (w : Tensor) (b : Option Tensor),
      propagateThrough (abstractOnlyRep n) s (.linearFC w b) =
        .error (.notImplemented
          ("snt.Linear modules are not supported by \"" ++ n ++ "\"."))) ∧
    (∀ (n : String) (s : Unit) (w : Tensor) (b : Option Tensor) (p : Padding)
      (sh sw : ℕ),
      propagateThrough (abstractOnlyRep n) s (.linearConv2d w b p sh sw) =
        .error (.notImplemented
          ("snt.Conv2D modules are not supported by \"" ++ n ++ "\"."))) ∧
    (∀ (n : String) (s : Unit) (fnName : String) (fn : List Tensor → Tensor),
      propagateThrough (abstractOnlyRep n) s (.monotonic fnName fn) =
        .error (.notImplemented
          (fnName ++ " modules are not supported by \"" ++ n ++ "\"."))) ∧
    (∀ (n : String) (s : Unit) (mean variance : Tensor) (scale bias : Option Tensor)
      (eps : ℚ),
      propagateThrough (abstractOnlyRep n) s (.batchNorm mean variance scale bias eps) =
        .error (.notImplemented
          ("ibp.BatchNorm modules are not supported by \"" ++ n ++ "\"."))) ∧
    (∀ (n : String) (s : Unit),
      propagateThrough (abstractOnlyRep n) s .batchFlatten =
        .error (.notImplemented
          ("snt.BatchFlatten modules are not supported by \"" ++ n ++ "\"."))) :=
  ⟨fun _ _ _ => rfl, fun _ _ _ _ => rfl, fun _ _ _ _ _ _ _ => rfl,
   fun _ _ _ _ => rfl, fun _ _ _ _ _ _ _ => rfl, fun _ _ => rfl⟩

/-- C8: `_batch_flatten` reshapes `lower` and `upper` independently into
batch × flattened-features layout, leaving the data untouched; on bounds that
are already 2D it is a no-op returning identical `lower` and `upper`. -/
theorem C8_batch_flatten_noop_on_2d :
    (∀ (a0 : ℕ) (arest : List ℕ) (ad : List ℚ) (b0 : ℕ) (brest : List ℕ)
      (bd : List ℚ),
      IntervalBounds.batchFlatten ⟨.single ⟨a0 :: arest, ad⟩, .single ⟨b0 :: brest, bd⟩⟩ =
        .ok ⟨.single ⟨[a0, arest.prod], ad⟩, .single ⟨[b0, brest.prod], bd⟩⟩) ∧
    (∀ (n f : ℕ) (ld ud : List ℚ),
      IntervalBounds.batchFlatten ⟨.single ⟨[n, f], ld⟩, .single ⟨[n, f], ud⟩⟩ =
        .ok ⟨.single ⟨[n, f], ld⟩, .single ⟨[n, f], ud⟩⟩) := by
  constructor
  · intro a0 arest ad b0 brest bd
    rfl
  · intro n f ld ud
    simp [IntervalBounds.batchFlatten, batchFlattenT]

/-- C9: propagation and combination are pure: in the state-threaded
translation the post-state of `self` (and of the operand of `combine_with`)
is unchanged, and the returned value is the freshly constructed result of the
corresponding pure function. -/
theorem C9_no_mutation :
    (∀ (self : IntervalBounds) (w : Wrapper), (self.propagateSt w).fst = self) ∧
    (∀ self other : IntervalBounds, (self.combineWithSt other).fst = (self, other)) ∧
    (∀ (self : IntervalBounds) (w : Wrapper),
      (self.propagateSt w).snd = propagateThrough intervalBoundsRep self w) ∧
    (∀ self other : IntervalBounds,
      (self.combineWithSt other).snd = self.combineWith other) :=
  ⟨fun _ _ => rfl, fun _ _ => rfl, fun _ _ => rfl, fun _ _ => rfl⟩

/-- C10: in `_batch_norm` the folded bias is squeezed on axis 0 before being
added to the center (while the multiplier is applied unsqueezed), so the
operation succeeds only when the folded bias carries a leading axis of size
exactly 1, and fails with a shape error for parameters without that leading
unit axis. -/
theorem C10_batch_norm_squeeze_precondition :
    (∀ (l u mean variance : Tensor) (scale bias : Option Tensor) (eps : ℚ)
      (out : IntervalBounds),
      IntervalBounds.batchNorm ⟨.single l, .single u⟩ mean variance scale bias eps =
        .ok out →
      ∃ w b0, bnMultiplier variance scale eps = some w ∧
        bnBias w mean bias = some b0 ∧ b0.shape.head? = some 1) ∧
    (IntervalBounds.batchNorm ⟨.single ⟨[1, 2], [1, 1]⟩, .single ⟨[1, 2], [1, 1]⟩⟩
        ⟨[2], [0, 0]⟩ ⟨[2], [0, 0]⟩ none none 0 = .error .shapeError) := by
  constructor
  · intro l u mean variance scale bias eps out h
    simp only [IntervalBounds.batchNorm] at h
    split at h
    · rename_i lohi hO
      simp only [batchNormO, Option.bind_eq_some] at hO
      obtain ⟨w, hw, b0, hb0, b, hb, -⟩ := hO
      rw [squeeze0] at hb
      split at hb
      · rename_i h1
        exact ⟨w, b0, hw, hb0, h1⟩
      · cases hb
    · cases h
  · simp [IntervalBounds.batchNorm, batchNormO, bnMultiplier, bnBias, addBias,
      tMap, tMul, ewise_pair_same, squeeze0, Option.some_bind, Option.none_bind]

/-- C10 witness: on the successful 1×1 batch-norm instance (mean 0, variance 3,
epsilon 1, scale 2, bias 0) the folded bias indeed has a leading axis of
size 1. -/
theorem C10_batch_norm_squeeze_precondition_witness :
    ∃ w b0, bnMultiplier ⟨[1, 1], [3]⟩ (some ⟨[1, 1], [2]⟩) 1 = some w ∧
      bnBias w ⟨[1, 1], [0]⟩ (some ⟨[1, 1], [0]⟩) = some b0 ∧
      b0.shape.head? = some 1 :=
  C10_batch_norm_squeeze_precondition.1 ⟨[1, 1], [1]⟩ ⟨[1, 1], [3]⟩ ⟨[1, 1], [0]⟩
    ⟨[1, 1], [3]⟩ (some ⟨[1, 1], [2]⟩) (some ⟨[1, 1], [0]⟩) 1
    ⟨.single ⟨[1, 1], [1]⟩, .single ⟨[1, 1], [3]⟩⟩
    (by
      have h1 : (3 : ℚ) + 1 = 4 := by norm_num
      norm_num [IntervalBounds.batchNorm, batchNormO, bnMultiplier, bnBias, addBias,
        squeeze0, tAdd, tSub, tMul, tMap, tAbs, ewise_single_same, ewise_11_1,
        h1, ratRsqrt_four, Option.some_bind])

end IBP
